import Mathlib

/-
Verification of the veilsupport XMPP gateway layer against its design
specification.  The Go sources are embedded shallowly: pure helpers become
Lean functions, stateful methods become explicit state-passing functions,
and each external collaborator outcome (database, transport, websocket) is
passed in as an explicit environment value so that the control flow of the
Go code around those calls is captured faithfully.
-/

namespace VeilSupport

/-! ## Identity mapper (MessageHandler.GenerateUserJID / extractUserEmailFromJID) -/

/-- ASCII alphanumeric test, the character class a-zA-Z0-9 used by the
sanitizer regular expression in MessageHandler.GenerateUserJID. -/
def goAlnum (c : Char) : Bool :=
  ('a' ≤ c && c ≤ 'z') || ('A' ≤ c && c ≤ 'Z') || ('0' ≤ c && c ≤ '9')

/-- One character step of ReplaceAllString with pattern [^a-zA-Z0-9] and
replacement "_": characters outside a-zA-Z0-9 become an underscore, the
rest are kept unchanged. -/
def sanitizeChar (c : Char) : Char := if goAlnum c then c else '_'

/-- MessageHandler.GenerateUserJID: the whole email string (not only its
local part) is sanitized character by character and wrapped as
user_<clean>@<domain>.  The Go function returns a plain string and has no
error path. -/
def generateUserJID (email domain : String) : String :=
  "user_" ++ String.mk (email.data.map sanitizeChar) ++ "@" ++ domain

/-- strings.Split restricted to a one-character separator, as used on the
at sign by extractUserEmailFromJID. -/
def splitOnChar : List Char → Char → List (List Char)
  | [], _ => [[]]
  | c :: r, sep =>
    if c = sep then [] :: splitOnChar r sep
    else
      match splitOnChar r sep with
      | [] => [[c]]
      | h :: t => (c :: h) :: t

/-- Character class kept unchanged by the sanitization rule as the spec
words it: a-zA-Z0-9 together with dot, underscore and hyphen. -/
def specKeep (c : Char) : Bool := goAlnum c || c = '.' || c = '_' || c = '-'

/-- The address derivation exactly as the specification sentence words it,
kept side by side with generateUserJID for comparison: sanitize only the
local part of the email, keeping dot, underscore and hyphen, lower-case the
result, then wrap as user_<clean>@<domain>. -/
def deriveAddressSpec (email domain : String) : String :=
  let lp := (splitOnChar email.data '@').headD []
  "user_" ++
    String.mk ((lp.map (fun c => if specKeep c then c else '_')).map Char.toLower) ++
    "@" ++ domain

/-- One character step of ReplaceAll(cleanPart, "_", "@"). -/
def underscoreToAt (c : Char) : Char := if c = '_' then '@' else c

/-- MessageHandler.extractUserEmailFromJID: the JID must contain exactly one
at sign (the code checks Contains and then that Split yields two parts,
which amounts to the same); the local part must carry the user_ marker,
which is dropped (TrimPrefix, five characters); finally every underscore is
replaced by an at sign.  The empty string is returned on any failure. -/
def extractUserEmailFromJID (jid : String) : String :=
  match splitOnChar jid.data '@' with
  | [localPart, _domainPart] =>
    if "user_".data.isPrefixOf localPart then
      String.mk ((localPart.drop 5).map underscoreToAt)
    else ""
  | _ => ""

/-! ## Reply parser (BetterBotClient.ParseAdminReply) -/

/-- Go unicode.IsSpace, the Unicode White Space property, used by
strings.TrimSpace. -/
def goUnicodeSpace (c : Char) : Bool :=
  (9 ≤ c.toNat && c.toNat ≤ 13) || c.toNat = 32 || c.toNat = 0x85 ||
  c.toNat = 0xA0 || c.toNat = 0x1680 ||
  (0x2000 ≤ c.toNat && c.toNat ≤ 0x200A) ||
  c.toNat = 0x2028 || c.toNat = 0x2029 || c.toNat = 0x202F ||
  c.toNat = 0x205F || c.toNat = 0x3000

/-- The white-space character class of Go's regexp package (RE2): tab,
newline, form feed, carriage return and space. -/
def goRegexSpace (c : Char) : Bool :=
  c.toNat = 9 || c.toNat = 10 || c.toNat = 12 || c.toNat = 13 || c.toNat = 32

/-- strings.TrimSpace on the character list: drop Unicode white space from
both ends. -/
def trimList (l : List Char) : List Char :=
  ((l.dropWhile goUnicodeSpace).reverse.dropWhile goUnicodeSpace).reverse

/-- strings.TrimSpace. -/
def trimSpace (s : String) : String := String.mk (trimList s.data)

/-- The digit class of the reply pattern, code points 48 to 57. -/
def isAsciiDigit (c : Char) : Bool := 48 ≤ c.toNat && c.toNat ≤ 57

/-- Backtracking tail case of the reply pattern: the greedy white-space run
consumed the whole remainder, so it gives characters back from the end
(processed here in reverse order), always keeping at least one; the final
dot-plus group then matches the first returned character provided it is not
a newline.  Unreachable after TrimSpace, modelled for fidelity. -/
def backOff : List Char → Option (List Char)
  | [] => none
  | [_] => none
  | c :: rest => if c = '\n' then backOff rest else some [c]

/-- Functional model of FindStringSubmatch for the anchored reply pattern:
an at sign, then one or more digits (first capture), then one or more
white-space characters, then the message body matched greedily by dot-plus
up to the next newline (second capture).  The digit run taken is maximal:
backtracking cannot shorten it because the character after it would have to
be white space, and a digit is never white space.  Likewise the white-space
run is maximal whenever anything follows it; when nothing does, backOff
gives characters back to the body group. -/
def reMatch (l : List Char) : Option (List Char × List Char) :=
  match l with
  | [] => none
  | a :: t =>
    if a = '@' then
      let d := t.takeWhile isAsciiDigit
      let u := t.dropWhile isAsciiDigit
      if d.isEmpty then none
      else
        let w := u.takeWhile goRegexSpace
        let v := u.dropWhile goRegexSpace
        if w.isEmpty then none
        else
          match v with
          | c :: r => some (d, (c :: r).takeWhile (fun x => x != '\n'))
          | [] => (backOff w.reverse).map (fun body => (d, body))
    else none

/-- Decimal value of a digit run, accumulated the way strconv.Atoi does. -/
def digitsVal (d : List Char) : Nat :=
  d.foldl (fun a c => a * 10 + (c.toNat - 48)) 0

/-- Go's int is 64 bits wide on this platform, so strconv.Atoi fails above
this value. -/
def maxGoInt : Nat := 9223372036854775807

/-- strconv.Atoi restricted to a nonempty run of ASCII digits, which is the
only shape the first capture can have: the numeric value, or a range error
when it exceeds the signed 64 bit maximum. -/
def goAtoi (d : List Char) : Option Nat :=
  if digitsVal d ≤ maxGoInt then some (digitsVal d) else none

/-- BetterBotClient.ParseAdminReply: trim the input, match the reply
pattern, convert the captured digit run with Atoi; a failed match or a
failed conversion is an error. -/
def parseAdminReply (message : String) : Except String (Nat × String) :=
  match reMatch (trimList message.data) with
  | none => .error "invalid reply format. Use: @USER_ID message"
  | some (d, body) =>
    match goAtoi d with
    | none => .error ("invalid user ID: " ++ String.mk d)
    | some n => .ok (n, String.mk body)

/-- Shape of a string accepted by the anchored reply pattern, stated as an
explicit decomposition rather than through the matcher: an at sign, a
nonempty digit run, a nonempty white-space run, then a remainder whose
first character is not white space. -/
def goodShape (l : List Char) : Prop :=
  ∃ d w c r, l = '@' :: (d ++ w ++ c :: r) ∧ d ≠ [] ∧
    (∀ x ∈ d, isAsciiDigit x = true) ∧ w ≠ [] ∧
    (∀ x ∈ w, goRegexSpace x = true) ∧ goRegexSpace c = false

/-! ## Message handler (MessageHandler.ProcessAdminMessage)

The handler's side effects on its collaborators are recorded as an ordered
trace, and each collaborator outcome is supplied through an environment
record, so the Go control flow around failures is modelled exactly. -/

/-- One side effect of ProcessAdminMessage, in the order the Go code issues
them. -/
inductive AdminEffect where
  | getOrCreateSession (user : String)
  | xmppSend (src dst msg : String)
  | saveMessage (sessionID src dst msg ty : String)
  | wsBroadcast (user msg : String)
deriving DecidableEq, Repr

/-- Outcomes of the collaborators called by ProcessAdminMessage.  The
broadcast outcome is carried for completeness, but the Go code only logs a
broadcast failure, so it cannot influence anything. -/
structure AdminEnv where
  sessionResult : Except String String
  hasUserSession : Bool
  xmppSendOk : Bool
  saveResult : Except String Unit
  broadcastOk : Bool

/-- MessageHandler.ProcessAdminMessage: resolve the chat session, derive the
user JID, send over XMPP only when a user session exists (a send failure is
only logged), save to the database (a save failure returns at once), then
broadcast over WebSocket (a broadcast failure is only logged). -/
def processAdminMessage (env : AdminEnv) (cfgAdmin domain targetUser message : String) :
    List AdminEffect × Except String Unit :=
  match env.sessionResult with
  | .error e =>
    ([.getOrCreateSession targetUser], .error ("failed to get/create session: " ++ e))
  | .ok sessionID =>
    let userJID := generateUserJID targetUser domain
    let pre := [AdminEffect.getOrCreateSession targetUser] ++
      (if env.hasUserSession then [AdminEffect.xmppSend cfgAdmin userJID message] else [])
    let effs := pre ++ [AdminEffect.saveMessage sessionID cfgAdmin userJID message "admin"]
    match env.saveResult with
    | .error e => (effs, .error ("failed to save admin message: " ++ e))
    | .ok _ => (effs ++ [AdminEffect.wsBroadcast targetUser message], .ok ())

/-! ## Bot client (BetterBotClient) -/

/-- BetterBotClient.UserSession.  The password-less record the bot keeps per
active website user. -/
structure UserSession where
  userID : Nat
  email : String
  displayName : String
  lastMessage : String
  lastMessageAt : Int
  messageCount : Nat
  color : String
deriving DecidableEq, Repr

/-- The color palette of SendUserMessage. -/
def colors : List String := ["🔴", "🟠", "🟡", "🟢", "🔵", "🟣", "🟤", "⚫", "⚪"]

/-- State of a BetterBotClient: the connected flag, whether the session
pointer is non-nil, and the activeUsers map. -/
structure BotState where
  connected : Bool
  sessionSome : Bool
  activeUsers : Nat → Option UserSession

/-- Outcomes of the transport calls a BetterBotClient makes. -/
structure BotEnv where
  jidValid : Bool
  dialOk : Bool
  presenceOk : Bool
  adminJIDValid : Bool
  sendOk : Bool

/-- One observable transport action of the bot client. -/
inductive BotEffect where
  | dialAttempt
  | presenceSend
  | adminSend
deriving DecidableEq, Repr

/-- The activeUsers mutation performed by SendUserMessage while it holds the
lock: create the record on first contact (message count starts at zero,
color from the palette), then record the message and bump the count. -/
def sendUserMessageCore (st : BotState) (uid : Nat) (email dn msg : String) (now : Int) :
    BotState :=
  let base :=
    match st.activeUsers uid with
    | some s => s
    | none =>
      { userID := uid, email := email, displayName := dn, lastMessage := "",
        lastMessageAt := 0, messageCount := 0,
        color := colors.getD (uid % colors.length) "" }
  let s := { base with
    lastMessage := msg
    lastMessageAt := now
    messageCount := base.messageCount + 1 }
  { st with activeUsers := fun k => if k = uid then some s else st.activeUsers k }

/-- Result of BetterBotClient.sendToAdmin, driven by the environment: parse
the admin JID, then send with a timeout.  The message formatting of
formatUserMessage is presentation only and is not modelled. -/
def sendToAdminResult (env : BotEnv) : Except String Unit :=
  if !env.adminJIDValid then .error "invalid admin JID"
  else if env.sendOk then .ok () else .error "failed to send message"

/-- BetterBotClient.SendUserMessage: refuse at once when the bot is not
connected or holds no session, otherwise update the activeUsers record and
then send the formatted message to the admin. -/
def botSendUserMessage (env : BotEnv) (st : BotState) (uid : Nat)
    (email dn msg : String) (now : Int) :
    BotState × List BotEffect × Except String Unit :=
  if st.connected && st.sessionSome then
    let st1 := sendUserMessageCore st uid email dn msg now
    (st1, [BotEffect.adminSend], sendToAdminResult env)
  else (st, [], .error "bot not connected")

/-- BetterBotClient.Connect: a no-op when already connected with a live
session; otherwise parse the bot JID, dial, send presence (closing the new
session again if that fails), store the session and set the flag. -/
def botConnect (env : BotEnv) (st : BotState) :
    BotState × List BotEffect × Except String Unit :=
  if st.connected && st.sessionSome then (st, [], .ok ())
  else if !env.jidValid then (st, [], .error "invalid bot JID")
  else if !env.dialOk then (st, [BotEffect.dialAttempt], .error "failed to connect")
  else if !env.presenceOk then
    (st, [BotEffect.dialAttempt, BotEffect.presenceSend], .error "failed to send presence")
  else ({ st with connected := true, sessionSome := true },
        [BotEffect.dialAttempt, BotEffect.presenceSend, BotEffect.adminSend], .ok ())

/-- Repeated successful submissions from one user through SendUserMessage,
starting from a connected bot with an empty activeUsers map. -/
def iterateSubmit (env : BotEnv) (uid : Nat) (email dn msg : String) (now : Int) :
    Nat → BotState
  | 0 => { connected := true, sessionSome := true, activeUsers := fun _ => none }
  | n + 1 => (botSendUserMessage env (iterateSubmit env uid email dn msg now n)
      uid email dn msg now).1

/-! ## Connection manager (XMPPManager) -/

/-- State of an XMPPManager: the admin connected flag, whether the stored
admin session pointer is non-nil, and the set of user client JIDs. -/
structure ManagerState where
  adminConnected : Bool
  adminClientSome : Bool
  userClients : List String
deriving DecidableEq, Repr

/-- Outcomes of the calls ConnectAdmin makes: admin JID parsing and the
createSession call (whether it errors, and whether the session it hands
back is non-nil; the checked-in stub returns a nil session and no error). -/
structure MgrConnectEnv where
  adminJIDValid : Bool
  createOk : Bool
  sessionNonNil : Bool
deriving DecidableEq, Repr

/-- XMPPManager.ConnectAdmin: parse the admin JID, call createSession, store
whatever session comes back and set the connected flag.  There is no
already-connected guard, so every call performs a fresh attempt and
overwrites the stored session. -/
def connectAdmin (env : MgrConnectEnv) (st : ManagerState) :
    ManagerState × List BotEffect × Except String Unit :=
  if !env.adminJIDValid then (st, [], .error "invalid admin JID")
  else if !env.createOk then (st, [BotEffect.dialAttempt], .error "failed to create admin session")
  else ({ st with adminConnected := true, adminClientSome := env.sessionNonNil },
        [BotEffect.dialAttempt], .ok ())

/-- Observable steps of XMPPManager.SendMessage.  The checked-in code
validates the recipient JID and then returns nil without a transport write,
so recipient parsing is the only observable action. -/
inductive MgrSendEffect where
  | parseRecipient (dst : String)
deriving DecidableEq, Repr

/-- XMPPManager.SendMessage: an admin-originated send requires the admin
connected flag, a user-originated send requires a user client entry; only
then is the recipient JID parsed (validity supplied by toValid).  No
transport write follows in the checked-in code. -/
def sendMessage (cfgAdmin : String) (toValid : Bool) (st : ManagerState)
    (src dst msg : String) : List MgrSendEffect × Except String Unit :=
  if src = cfgAdmin then
    if !st.adminConnected then ([], .error "admin not connected")
    else if !toValid then ([MgrSendEffect.parseRecipient dst], .error "invalid recipient JID")
    else ([MgrSendEffect.parseRecipient dst], .ok ())
  else
    if !(st.userClients.contains src) then
      ([], .error ("no session found for user: " ++ src))
    else if !toValid then ([MgrSendEffect.parseRecipient dst], .error "invalid recipient JID")
    else ([MgrSendEffect.parseRecipient dst], .ok ())

/-! ## Session manager (XMPPSessionManager) -/

/-- XMPPSessionManager.UserXMPPSession, with the connection pointer reduced
to its nil-ness and times measured in minutes. -/
structure UserXMPPSession where
  userID : Nat
  jid : String
  password : String
  clientSome : Bool
  active : Bool
  lastUsed : Int
deriving DecidableEq, Repr

/-- The sessions map of an XMPPSessionManager, keyed by user id. -/
abbrev SessionMap := List (Nat × UserXMPPSession)

/-- The map read sm.sessions[userID]. -/
def lookupSession (m : SessionMap) (uid : Nat) : Option UserXMPPSession :=
  (m.find? (fun p => p.1 == uid)).map (fun p => p.2)

/-- XMPPSessionManager.CleanupInactiveSessions: the cutoff is fixed at
thirty minutes before now, and every session whose lastUsed lies strictly
before the cutoff is deleted.  The Go method returns nothing. -/
def cleanupInactiveSessions (now : Int) (m : SessionMap) : SessionMap :=
  m.filter (fun p => !(p.2.lastUsed < now - 30))

/-- The eviction operation exactly as the specification sentence words it,
kept side by side with cleanupInactiveSessions for comparison: a threshold
parameter, and the count of evicted records returned next to the new map. -/
def evictStaleSpec (now threshold : Int) (m : SessionMap) : SessionMap × Nat :=
  (m.filter (fun p => !(p.2.lastUsed < now - threshold)),
   (m.filter (fun p => p.2.lastUsed < now - threshold)).length)

/-- The session-reuse decision at the head of GetOrCreateUserSession: an
existing entry is reused only when it is active and was used within the
last thirty minutes; otherwise the caller tears it down and reconnects. -/
def reusableSession (now : Int) (m : SessionMap) (uid : Nat) : Option UserXMPPSession :=
  match lookupSession m uid with
  | some s => if s.active && decide (now - s.lastUsed < 30) then some s else none
  | none => none

/-! ## Helper lemmas -/

theorem regexSpace_unicode {c : Char} (h : goRegexSpace c = true) :
    goUnicodeSpace c = true := by
  have hn : c.toNat = 9 ∨ c.toNat = 10 ∨ c.toNat = 12 ∨ c.toNat = 13 ∨ c.toNat = 32 := by
    simpa [goRegexSpace, or_assoc] using h
  simp only [goUnicodeSpace, Bool.or_eq_true, Bool.and_eq_true, decide_eq_true_eq]
  omega

theorem regexSpace_not_digit {c : Char} (h : goRegexSpace c = true) :
    isAsciiDigit c = false := by
  have hn : c.toNat = 9 ∨ c.toNat = 10 ∨ c.toNat = 12 ∨ c.toNat = 13 ∨ c.toNat = 32 := by
    simpa [goRegexSpace, or_assoc] using h
  apply Bool.eq_false_iff.mpr
  simp only [ne_eq, isAsciiDigit, Bool.and_eq_true, decide_eq_true_eq, not_and]
  omega

theorem takeWhile_all_append (p : Char → Bool) (a b : List Char)
    (h : ∀ x ∈ a, p x = true) : (a ++ b).takeWhile p = a ++ b.takeWhile p := by
  induction a with
  | nil => simp
  | cons c r ih =>
    have hc : p c = true := h c (List.mem_cons_self c r)
    simp only [List.cons_append, List.takeWhile_cons, hc, if_true]
    rw [ih (fun x hx => h x (List.mem_cons_of_mem c hx))]

theorem dropWhile_all_append (p : Char → Bool) (a b : List Char)
    (h : ∀ x ∈ a, p x = true) : (a ++ b).dropWhile p = b.dropWhile p := by
  induction a with
  | nil => simp
  | cons c r ih =>
    have hc : p c = true := h c (List.mem_cons_self c r)
    simp only [List.cons_append, List.dropWhile_cons, hc, if_true]
    exact ih (fun x hx => h x (List.mem_cons_of_mem c hx))

theorem dropWhile_head_not (p : Char → Bool) (l : List Char) :
    l.dropWhile p = [] ∨ ∃ c r, l.dropWhile p = c :: r ∧ p c = false := by
  induction l with
  | nil => exact Or.inl rfl
  | cons c r ih =>
    by_cases hc : p c = true
    · simpa [List.dropWhile_cons, hc] using ih
    · exact Or.inr ⟨c, r, by simp [List.dropWhile_cons, hc], by simpa using hc⟩

theorem dropWhile_of_head_not (p : Char → Bool) (c : Char) (r : List Char)
    (h : p c = false) : (c :: r).dropWhile p = c :: r := by
  simp [List.dropWhile_cons, h]

/-- The trimmed list is the space-stripped list with a further (all-space)
suffix removed. -/
theorem trimList_append (l : List Char) :
    ∃ q, trimList l ++ q = l.dropWhile goUnicodeSpace ∧
      ∀ x ∈ q, goUnicodeSpace x = true := by
  set m := l.dropWhile goUnicodeSpace with hm
  refine ⟨(m.reverse.takeWhile goUnicodeSpace).reverse, ?_, ?_⟩
  · have h1 : m.reverse.takeWhile goUnicodeSpace ++ m.reverse.dropWhile goUnicodeSpace
        = m.reverse := List.takeWhile_append_dropWhile goUnicodeSpace m.reverse
    have h2 := congrArg List.reverse h1
    simp only [List.reverse_append, List.reverse_reverse] at h2
    simpa [trimList, ← hm] using h2
  · intro x hx
    have hx' : x ∈ m.reverse.takeWhile goUnicodeSpace := by
      simpa using hx
    exact List.mem_takeWhile_imp hx'

/-- When nonempty, the trimmed list ends in a character that is not white
space. -/
theorem trimList_last_not (l : List Char) :
    trimList l = [] ∨
      ∃ a c, trimList l = a ++ [c] ∧ goUnicodeSpace c = false := by
  rcases dropWhile_head_not goUnicodeSpace (l.dropWhile goUnicodeSpace).reverse with h | h
  · left; simp [trimList, h]
  · rcases h with ⟨c, r, hcr, hc⟩
    right
    exact ⟨r.reverse, c, by simp [trimList, hcr], hc⟩

/-- When nonempty, the trimmed list starts with a character that is not
white space. -/
theorem trimList_head_not (l : List Char) :
    trimList l = [] ∨
      ∃ c r, trimList l = c :: r ∧ goUnicodeSpace c = false := by
  rcases trimList_append l with ⟨q, hq, _⟩
  rcases dropWhile_head_not goUnicodeSpace l with h | h
  · left
    rcases List.append_eq_nil.mp (hq.trans h) with ⟨h1, _⟩
    exact h1
  · rcases h with ⟨c, r, hcr, hc⟩
    cases ht : trimList l with
    | nil => exact Or.inl rfl
    | cons a t' =>
      right
      refine ⟨a, t', rfl, ?_⟩
      rw [ht] at hq
      rw [hcr] at hq
      simp only [List.cons_append] at hq
      rw [(List.cons.inj hq).1]
      exact hc

/-- Trimming is idempotent. -/
theorem trimList_idem (l : List Char) : trimList (trimList l) = trimList l := by
  cases ht : trimList l with
  | nil => rfl
  | cons a t' =>
    have hhead : goUnicodeSpace a = false := by
      rcases trimList_head_not l with h | ⟨c, r, hcr, hc⟩
      · rw [ht] at h; exact absurd h (List.cons_ne_nil a t')
      · rw [ht] at hcr
        rw [(List.cons.inj hcr).1]
        exact hc
    have hdrop : (a :: t').dropWhile goUnicodeSpace = a :: t' :=
      dropWhile_of_head_not _ _ _ hhead
    rcases trimList_last_not l with h | ⟨b, c, hbc, hc⟩
    · rw [ht] at h; exact absurd h (List.cons_ne_nil a t')
    · rw [ht] at hbc
      have hrev : (a :: t').reverse = c :: b.reverse := by
        rw [hbc]; simp
      have hdrop2 : ((a :: t').reverse).dropWhile goUnicodeSpace = (a :: t').reverse := by
        rw [hrev]; exact dropWhile_of_head_not _ _ _ hc
      show (((a :: t').dropWhile goUnicodeSpace).reverse.dropWhile goUnicodeSpace).reverse
        = a :: t'
      rw [hdrop, hdrop2, List.reverse_reverse]

theorem mem_reverse_head {w : List Char} {c : Char} {r : List Char}
    (h : w.reverse = c :: r) : c ∈ w := by
  have : c ∈ w.reverse := by rw [h]; exact List.mem_cons_self c r
  simpa using this

/-- On a decomposed accepted shape, the maximal digit run is the digit
component. -/
theorem shape_digits (d w : List Char) (c : Char) (r : List Char)
    (hdall : ∀ x ∈ d, isAsciiDigit x = true) (hw : w ≠ [])
    (hwall : ∀ x ∈ w, goRegexSpace x = true) :
    (d ++ w ++ c :: r).takeWhile isAsciiDigit = d := by
  obtain ⟨w0, w', rfl⟩ := List.exists_cons_of_ne_nil hw
  have hw0 : isAsciiDigit w0 = false :=
    regexSpace_not_digit (hwall w0 (List.mem_cons_self w0 w'))
  rw [List.append_assoc, takeWhile_all_append isAsciiDigit d _ hdall]
  simp [List.takeWhile_cons, hw0]

/-- The matcher accepts exactly the decomposed shapes, and captures the
digit run and the body up to the first newline. -/
theorem reMatch_shape (d w : List Char) (c : Char) (r : List Char)
    (hd : d ≠ []) (hdall : ∀ x ∈ d, isAsciiDigit x = true)
    (hw : w ≠ []) (hwall : ∀ x ∈ w, goRegexSpace x = true)
    (hc : goRegexSpace c = false) :
    reMatch ('@' :: (d ++ w ++ c :: r))
      = some (d, (c :: r).takeWhile (fun x => x != '\n')) := by
  obtain ⟨w0, w', hwe⟩ := List.exists_cons_of_ne_nil hw
  have hw0d : isAsciiDigit w0 = false :=
    regexSpace_not_digit (hwall w0 (by rw [hwe]; exact List.mem_cons_self w0 w'))
  have h1 : (d ++ w ++ c :: r).takeWhile isAsciiDigit = d :=
    shape_digits d w c r hdall hw hwall
  have h2 : (d ++ w ++ c :: r).dropWhile isAsciiDigit = w ++ c :: r := by
    rw [List.append_assoc, dropWhile_all_append isAsciiDigit d _ hdall]
    rw [hwe]
    exact dropWhile_of_head_not _ _ _ hw0d
  have h3 : (w ++ c :: r).takeWhile goRegexSpace = w := by
    rw [takeWhile_all_append goRegexSpace w _ hwall]
    simp [List.takeWhile_cons, hc]
  have h4 : (w ++ c :: r).dropWhile goRegexSpace = c :: r := by
    rw [dropWhile_all_append goRegexSpace w _ hwall]
    exact dropWhile_of_head_not _ _ _ hc
  obtain ⟨d0, d', rfl⟩ := List.exists_cons_of_ne_nil hd
  simp only [reMatch, if_pos rfl, h1, h2, h3, h4, List.isEmpty_cons,
    Bool.false_eq_true, if_false]
  rw [hwe]
  simp

/-- Success of ParseAdminReply on an accepted shape whose digit value is in
range for Atoi. -/
theorem parse_ok_of_shape (s : String) (d w : List Char) (c : Char) (r : List Char)
    (ht : trimList s.data = '@' :: (d ++ w ++ c :: r))
    (hd : d ≠ []) (hdall : ∀ x ∈ d, isAsciiDigit x = true)
    (hw : w ≠ []) (hwall : ∀ x ∈ w, goRegexSpace x = true)
    (hc : goRegexSpace c = false)
    (hrange : digitsVal d ≤ maxGoInt) :
    parseAdminReply s
      = .ok (digitsVal d, String.mk ((c :: r).takeWhile (fun x => x != '\n'))) := by
  have hre := reMatch_shape d w c r hd hdall hw hwall hc
  simp only [parseAdminReply, ht, hre, goAtoi, hrange, if_true]

/-- Unfolding of the matcher on a string that starts with the at sign. -/
theorem reMatch_cons_at (t : List Char) :
    reMatch ('@' :: t) =
      (if (t.takeWhile isAsciiDigit).isEmpty = true then none
       else if ((t.dropWhile isAsciiDigit).takeWhile goRegexSpace).isEmpty = true then none
       else
         match (t.dropWhile isAsciiDigit).dropWhile goRegexSpace with
         | c :: r => some (t.takeWhile isAsciiDigit,
             (c :: r).takeWhile (fun x => x != '\n'))
         | [] =>
           (backOff ((t.dropWhile isAsciiDigit).takeWhile goRegexSpace).reverse).map
             (fun body => (t.takeWhile isAsciiDigit, body))) := rfl

/-- Success of ParseAdminReply yields an accepted decomposition of the
trimmed input, with the returned id and body determined by it. -/
theorem parse_ok_decomp (s : String) (n : Nat) (b : String)
    (h : parseAdminReply s = .ok (n, b)) :
    ∃ d w c r, trimList s.data = '@' :: (d ++ w ++ c :: r) ∧ d ≠ [] ∧
      (∀ x ∈ d, isAsciiDigit x = true) ∧ w ≠ [] ∧
      (∀ x ∈ w, goRegexSpace x = true) ∧ goRegexSpace c = false ∧
      digitsVal d ≤ maxGoInt ∧ n = digitsVal d ∧
      b = String.mk ((c :: r).takeWhile (fun x => x != '\n')) := by
  rcases hre : reMatch (trimList s.data) with _ | ⟨d, body⟩
  · simp only [parseAdminReply, hre] at h
    exact Except.noConfusion h
  · rcases hat : goAtoi d with _ | m
    · simp only [parseAdminReply, hre, hat] at h
      exact Except.noConfusion h
    · simp only [parseAdminReply, hre, hat] at h
      rw [Except.ok.injEq, Prod.mk.injEq] at h
      obtain ⟨rfl, rfl⟩ := h
      have hrange : digitsVal d ≤ maxGoInt ∧ m = digitsVal d := by
        unfold goAtoi at hat
        by_cases hr : digitsVal d ≤ maxGoInt
        · rw [if_pos hr] at hat
          exact ⟨hr, (Option.some.inj hat).symm⟩
        · rw [if_neg hr] at hat
          exact absurd hat (by simp)
      -- now analyse the matcher success
      rcases htl : trimList s.data with _ | ⟨a, t⟩
      · rw [htl] at hre
        exact absurd hre (by simp [reMatch])
      · rw [htl] at hre
        by_cases ha : a = '@'
        · subst ha
          rw [reMatch_cons_at] at hre
          rcases hd1 : t.takeWhile isAsciiDigit with _ | ⟨d0, d'⟩
          · rw [hd1] at hre
            simp only [List.isEmpty_nil, if_true] at hre
            exact Option.noConfusion hre
          · rw [hd1] at hre
            simp only [List.isEmpty_cons, Bool.false_eq_true, if_false] at hre
            rcases hw1 : (t.dropWhile isAsciiDigit).takeWhile goRegexSpace with _ | ⟨w0, w'⟩
            · rw [hw1] at hre
              simp only [List.isEmpty_nil, if_true] at hre
              exact Option.noConfusion hre
            · rw [hw1] at hre
              simp only [List.isEmpty_cons, Bool.false_eq_true, if_false] at hre
              rcases hv : (t.dropWhile isAsciiDigit).dropWhile goRegexSpace with _ | ⟨c, r⟩
              · -- dead branch: everything after the digits is white space,
                -- impossible after TrimSpace
                exfalso
                have htw : t = (d0 :: d') ++ (w0 :: w') := by
                  have e1 : t.takeWhile isAsciiDigit ++ t.dropWhile isAsciiDigit = t :=
                    List.takeWhile_append_dropWhile isAsciiDigit t
                  have e2 : (t.dropWhile isAsciiDigit).takeWhile goRegexSpace ++
                      (t.dropWhile isAsciiDigit).dropWhile goRegexSpace
                      = t.dropWhile isAsciiDigit :=
                    List.takeWhile_append_dropWhile goRegexSpace _
                  rw [hv, List.append_nil] at e2
                  rw [hd1] at e1
                  rw [hw1] at e2
                  rw [← e2] at e1
                  exact e1.symm
                rcases trimList_last_not s.data with hnil | ⟨a2, c2, hlast, hc2⟩
                · rw [htl] at hnil
                  exact List.cons_ne_nil _ _ hnil
                · rw [htl, htw] at hlast
                  rcases hwr : (w0 :: w').reverse with _ | ⟨cw, rw'⟩
                  · exact List.cons_ne_nil w0 w' (List.reverse_eq_nil_iff.mp hwr)
                  · have hrev : ('@' :: ((d0 :: d') ++ (w0 :: w'))).reverse
                        = c2 :: a2.reverse := by
                      rw [hlast]
                      simp
                    rw [List.reverse_cons, List.reverse_append, hwr] at hrev
                    simp only [List.cons_append, List.append_assoc] at hrev
                    have hcw : cw = c2 := (List.cons.inj hrev).1
                    have hmem : cw ∈ w0 :: w' := mem_reverse_head hwr
                    have hsp : goRegexSpace cw = true :=
                      List.mem_takeWhile_imp (p := goRegexSpace)
                        (l := t.dropWhile isAsciiDigit) (by rw [hw1]; exact hmem)
                    rw [hcw] at hsp
                    rw [regexSpace_unicode hsp] at hc2
                    exact Bool.noConfusion hc2
              · -- main branch
                rw [hv] at hre
                rw [Option.some.injEq, Prod.mk.injEq] at hre
                obtain ⟨rfl, rfl⟩ := hre
                refine ⟨d0 :: d', w0 :: w', c, r, ?_, List.cons_ne_nil d0 d', ?_, ?_, ?_, ?_,
                  hrange.1, hrange.2, rfl⟩
                · have e1 : t.takeWhile isAsciiDigit ++ t.dropWhile isAsciiDigit = t :=
                    List.takeWhile_append_dropWhile isAsciiDigit t
                  have e2 : (t.dropWhile isAsciiDigit).takeWhile goRegexSpace ++
                      (t.dropWhile isAsciiDigit).dropWhile goRegexSpace
                      = t.dropWhile isAsciiDigit :=
                    List.takeWhile_append_dropWhile goRegexSpace _
                  rw [hw1, hv] at e2
                  rw [hd1, ← e2] at e1
                  rw [List.append_assoc, e1]
                · intro x hx
                  exact List.mem_takeWhile_imp (by rw [hd1]; exact hx)
                · exact List.cons_ne_nil w0 w'
                · intro x hx
                  exact List.mem_takeWhile_imp (by rw [hw1]; exact hx)
                · rcases dropWhile_head_not goRegexSpace (t.dropWhile isAsciiDigit)
                    with hnil | ⟨c3, r3, hcr3, hc3⟩
                  · rw [hv] at hnil
                    exact absurd hnil (List.cons_ne_nil c r)
                  · rw [hv] at hcr3
                    rw [(List.cons.inj hcr3).1]
                    exact hc3
        · rw [show reMatch (a :: t) = none by simp [reMatch, ha]] at hre
          exact Option.noConfusion hre

theorem splitOnChar_no_sep (l : List Char) (sep : Char) (h : sep ∉ l) :
    splitOnChar l sep = [l] := by
  induction l with
  | nil => rfl
  | cons c r ih =>
    have hc : ¬ c = sep := fun e => h (e ▸ List.mem_cons_self c r)
    simp only [splitOnChar, if_neg hc, ih (fun hm => h (List.mem_cons_of_mem c hm))]

theorem splitOnChar_single (a b : List Char) (sep : Char)
    (ha : sep ∉ a) (hb : sep ∉ b) :
    splitOnChar (a ++ sep :: b) sep = [a, b] := by
  induction a with
  | nil => simp [splitOnChar, splitOnChar_no_sep b sep hb]
  | cons c a' ih =>
    have hc : ¬ c = sep := fun e => ha (e ▸ List.mem_cons_self c a')
    simp [splitOnChar, hc, ih (fun hm => ha (List.mem_cons_of_mem c hm))]

theorem isPrefixOf_append_self (l t : List Char) : l.isPrefixOf (l ++ t) = true := by
  induction l with
  | nil => simp [List.isPrefixOf]
  | cons c r ih => simp [List.isPrefixOf, List.cons_append, ih]

theorem sanitize_no_at (l : List Char) : '@' ∉ l.map sanitizeChar := by
  intro hm
  rcases List.mem_map.mp hm with ⟨c, _, hc⟩
  unfold sanitizeChar at hc
  by_cases hg : goAlnum c = true
  · rw [if_pos hg] at hc
    rw [hc] at hg
    exact absurd hg (by decide)
  · rw [if_neg hg] at hc
    exact absurd hc (by decide)

/-- One unfolding step of iterateSubmit. -/
theorem iterateSubmit_step (env : BotEnv) (uid : Nat) (email dn msg : String)
    (now : Int) (j : Nat) :
    iterateSubmit env uid email dn msg now (j + 1)
      = (botSendUserMessage env (iterateSubmit env uid email dn msg now j)
          uid email dn msg now).1 := rfl

/-- The bot stays connected across submissions: SendUserMessage never touches
the connection flags. -/
theorem iterateSubmit_flags (env : BotEnv) (uid : Nat) (email dn msg : String)
    (now : Int) : ∀ n, (iterateSubmit env uid email dn msg now n).connected = true ∧
      (iterateSubmit env uid email dn msg now n).sessionSome = true := by
  intro n
  induction n with
  | zero => exact ⟨rfl, rfl⟩
  | succ k ih =>
    obtain ⟨h1, h2⟩ := ih
    rw [iterateSubmit_step]
    constructor <;> simp [botSendUserMessage, sendUserMessageCore, h1, h2]

theorem generateUserJID_data (email domain : String) :
    (generateUserJID email domain).data
      = ("user_".data ++ email.data.map sanitizeChar) ++ '@' :: domain.data := by
  simp [generateUserJID, String.data_append]

/-! ## Claim theorems -/

/-- Claim C1, counterexample: the frozen claim says ParseAdminReply succeeds
if and only if its input matches the anchored pattern, and that text with no
leading at sign fails.  The code trims the input first, so "  @101 hi" does
not itself match the anchored pattern (reMatch on the raw input fails), yet
ParseAdminReply accepts it as user 101. -/
theorem claim_C1_counterexample :
    parseAdminReply "  @101 hi" = .ok (101, "hi") ∧
      reMatch ("  @101 hi".data) = none :=
  ⟨rfl, rfl⟩

/-- Claim C1 (amended): after trimming surrounding white space, ParseAdminReply
succeeds exactly on inputs whose trimmed form matches the anchored pattern
with the digit run in range for a 64 bit signed Atoi; on success it returns
the digit run's value as the user id and the pattern's second capture (the
remaining text up to the next newline) as the body; a bare "@101", a
non-numeric id, the partial-prefix "@12a hello" and text without a leading
at sign after trimming are all rejected. -/
theorem claim_C1 :
    (∀ s : String, (∃ n b, parseAdminReply s = .ok (n, b)) ↔
      (goodShape (trimList s.data) ∧
        digitsVal (((trimList s.data).drop 1).takeWhile isAsciiDigit) ≤ maxGoInt))
    ∧ (∀ s n b, parseAdminReply s = .ok (n, b) →
        ∃ d w c r, trimList s.data = '@' :: (d ++ w ++ c :: r) ∧ d ≠ [] ∧
          (∀ x ∈ d, isAsciiDigit x = true) ∧ w ≠ [] ∧
          (∀ x ∈ w, goRegexSpace x = true) ∧ goRegexSpace c = false ∧
          n = digitsVal d ∧ b = String.mk ((c :: r).takeWhile (fun x => x != '\n')))
    ∧ parseAdminReply "@101 Your order shipped" = .ok (101, "Your order shipped")
    ∧ parseAdminReply "@101" = .error "invalid reply format. Use: @USER_ID message"
    ∧ parseAdminReply "hello there" = .error "invalid reply format. Use: @USER_ID message"
    ∧ parseAdminReply "@abc hi" = .error "invalid reply format. Use: @USER_ID message"
    ∧ parseAdminReply "@12a hello" = .error "invalid reply format. Use: @USER_ID message" := by
  refine ⟨?_, ?_, rfl, rfl, rfl, rfl, rfl⟩
  · intro s
    constructor
    · rintro ⟨n, b, h⟩
      obtain ⟨d, w, c, r, ht, hd, hdall, hw, hwall, hc, hrange, _, _⟩ :=
        parse_ok_decomp s n b h
      refine ⟨⟨d, w, c, r, ht, hd, hdall, hw, hwall, hc⟩, ?_⟩
      rw [ht]
      have hd2 : (('@' :: (d ++ w ++ c :: r)).drop 1).takeWhile isAsciiDigit = d := by
        rw [List.drop_succ_cons, List.drop_zero]
        exact shape_digits d w c r hdall hw hwall
      rw [hd2]
      exact hrange
    · rintro ⟨⟨d, w, c, r, ht, hd, hdall, hw, hwall, hc⟩, hrange⟩
      rw [ht] at hrange
      have hd2 : (('@' :: (d ++ w ++ c :: r)).drop 1).takeWhile isAsciiDigit = d := by
        rw [List.drop_succ_cons, List.drop_zero]
        exact shape_digits d w c r hdall hw hwall
      rw [hd2] at hrange
      exact ⟨digitsVal d, _, parse_ok_of_shape s d w c r ht hd hdall hw hwall hc hrange⟩
  · intro s n b h
    obtain ⟨d, w, c, r, ht, hd, hdall, hw, hwall, hc, _, hn, hb⟩ := parse_ok_decomp s n b h
    exact ⟨d, w, c, r, ht, hd, hdall, hw, hwall, hc, hn, hb⟩

/-- Witness for claim C1: the value characterization applied to the concrete
reply "@101 hi". -/
theorem claim_C1_witness :
    ∃ d w c r, trimList ("@101 hi").data = '@' :: (d ++ w ++ c :: r) ∧ d ≠ [] ∧
      (∀ x ∈ d, isAsciiDigit x = true) ∧ w ≠ [] ∧
      (∀ x ∈ w, goRegexSpace x = true) ∧ goRegexSpace c = false ∧
      101 = digitsVal d ∧ "hi" = String.mk ((c :: r).takeWhile (fun x => x != '\n')) :=
  claim_C1.2.1 "@101 hi" 101 "hi" rfl

/-- Claim C2, counterexample: the frozen claim describes the spec-worded
derivation (local part only, dot underscore hyphen kept, lower-cased), but
GenerateUserJID sanitizes the whole email with the class a-zA-Z0-9 only and
never lower-cases, so the two disagree already on "John.Doe@x.com". -/
theorem claim_C2_counterexample :
    generateUserJID "John.Doe@x.com" "veil.im" = "user_John_Doe_x_com@veil.im" ∧
      deriveAddressSpec "John.Doe@x.com" "veil.im" = "user_john.doe@veil.im" ∧
      generateUserJID "John.Doe@x.com" "veil.im"
        ≠ deriveAddressSpec "John.Doe@x.com" "veil.im" := by
  refine ⟨rfl, rfl, ?_⟩
  decide

/-- Claim C2 (amended): GenerateUserJID maps every character of the whole
email (local part and domain alike) through the sanitizer, which keeps
exactly the ASCII alphanumerics and the underscore and turns every other
character (dot, hyphen, at sign included) into an underscore, with no
lower-casing; the marker user_ is prefixed and the at sign and domain
appended. -/
theorem claim_C2 :
    (∀ email domain : String,
      (generateUserJID email domain).data
        = ("user_".data ++ email.data.map sanitizeChar) ++ '@' :: domain.data)
    ∧ (∀ c, sanitizeChar c = c ↔ (goAlnum c = true ∨ c = '_'))
    ∧ sanitizeChar '.' = '_' ∧ sanitizeChar '-' = '_' ∧ sanitizeChar '@' = '_'
    ∧ sanitizeChar 'A' = 'A' := by
  refine ⟨generateUserJID_data, ?_, rfl, rfl, rfl, rfl⟩
  intro c
  constructor
  · intro h
    by_cases hg : goAlnum c = true
    · exact Or.inl hg
    · right
      unfold sanitizeChar at h
      rw [if_neg hg] at h
      exact h.symm
  · intro h
    rcases h with hg | hg
    · simp [sanitizeChar, hg]
    · subst hg
      rfl

/-- Claim C9, counterexample: the frozen claim says GenerateUserJID fails on
an empty email or an empty domain and produces no address there; the Go
function has no error result at all and happily produces an address-shaped
string in both cases. -/
theorem claim_C9_counterexample :
    generateUserJID "" "veil.im" = "user_@veil.im" ∧
      generateUserJID "john@x.com" "" = "user_john_x_com@" :=
  ⟨rfl, rfl⟩

/-- Claim C9 (amended): GenerateUserJID validates nothing and cannot fail:
its only result is a string, and on an empty email or an empty domain it
still returns the marker, sanitized remainder and at sign. -/
theorem claim_C9 :
    ∀ domain email : String,
      generateUserJID "" domain = "user_@" ++ domain ∧
      generateUserJID email "" = "user_" ++ String.mk (email.data.map sanitizeChar) ++ "@" := by
  intro domain email
  constructor
  · apply String.ext
    simp [generateUserJID, String.data_append]
  · apply String.ext
    simp [generateUserJID, String.data_append]

/-- Claim C6, counterexample: the frozen claim says extractUserEmailFromJID
returns the sanitized local part as an underscore-separated fragment after
stripping the marker; the code instead replaces every underscore with an at
sign, so user_john_doe@veil.im yields "john@doe", not "john_doe". -/
theorem claim_C6_counterexample :
    extractUserEmailFromJID "user_john_doe@veil.im" = "john@doe" ∧
      extractUserEmailFromJID "user_john_doe@veil.im" ≠ "john_doe" := by
  refine ⟨rfl, ?_⟩
  decide

/-- Claim C6 (amended): extractUserEmailFromJID strips the user_ marker and
replaces every underscore of the remaining local part with an at sign — an
at-separated lossy fragment, not an underscore-separated one; round-tripping
a generated JID therefore returns the sanitized email with every underscore
(including the ones sanitization introduced) turned into an at sign, and a
JID without the marker, without an at sign, or with two at signs yields the
empty string. -/
theorem claim_C6 :
    (∀ email domain : String, '@' ∉ domain.data →
      extractUserEmailFromJID (generateUserJID email domain)
        = String.mk ((email.data.map sanitizeChar).map underscoreToAt))
    ∧ extractUserEmailFromJID "alice@veil.im" = ""
    ∧ extractUserEmailFromJID "user_abc" = ""
    ∧ extractUserEmailFromJID "user_a@b@c" = "" := by
  refine ⟨?_, rfl, rfl, rfl⟩
  intro email domain hdom
  have hsplit : splitOnChar (generateUserJID email domain).data '@'
      = ["user_".data ++ email.data.map sanitizeChar, domain.data] := by
    rw [generateUserJID_data]
    apply splitOnChar_single
    · intro hm
      rcases List.mem_append.mp hm with hm | hm
      · exact absurd hm (by decide)
      · exact sanitize_no_at _ hm
    · exact hdom
  unfold extractUserEmailFromJID
  rw [hsplit]
  show (if "user_".data.isPrefixOf ("user_".data ++ email.data.map sanitizeChar) = true
      then String.mk ((("user_".data ++ email.data.map sanitizeChar).drop 5).map underscoreToAt)
      else "") = _
  rw [isPrefixOf_append_self "user_".data (email.data.map sanitizeChar)]
  simp only [if_true]
  have hdrop : ("user_".data ++ email.data.map sanitizeChar).drop 5
      = email.data.map sanitizeChar := List.drop_left "user_".data _
  rw [hdrop]

/-- Claim C6 witness: the round-trip equation applied to a concrete email
and an at-free domain. -/
theorem claim_C6_witness :
    extractUserEmailFromJID (generateUserJID "john.doe@x.com" "veil.im")
      = "john@doe@x@com" := by
  have h := claim_C6.1 "john.doe@x.com" "veil.im" (by decide)
  rw [h]
  rfl

/-- Claim C10: ParseAdminReply is invariant under surrounding white space,
because the code trims before the anchored pattern is applied; in particular
"  @101 hi" parses as user 101 with body "hi". -/
theorem claim_C10 :
    (∀ s : String, parseAdminReply s = parseAdminReply (trimSpace s))
    ∧ parseAdminReply "  @101 hi" = .ok (101, "hi") := by
  constructor
  · intro s
    unfold parseAdminReply
    rw [show (trimSpace s).data = trimList s.data from rfl, trimList_idem]
  · rfl

/-- Claim C3, counterexample: the frozen claim says persistence and live
delivery are independent and both always attempted; in the code a database
save failure returns at once, so the WebSocket broadcast is never attempted.
The run below has a working broadcast channel, a failing save and even a
failing XMPP send (showing the XMPP half of the claim does hold): the trace
ends at the save, with no broadcast effect. -/
theorem claim_C3_counterexample :
    processAdminMessage ⟨Except.ok "s1", true, false, Except.error "db down", true⟩
        "admin@veil.im" "veil.im" "u@x.com" "hi"
      = ([AdminEffect.getOrCreateSession "u@x.com",
          AdminEffect.xmppSend "admin@veil.im" "user_u_x_com@veil.im" "hi",
          AdminEffect.saveMessage "s1" "admin@veil.im" "user_u_x_com@veil.im" "hi" "admin"],
         Except.error "failed to save admin message: db down")
    ∧ AdminEffect.wsBroadcast "u@x.com" "hi"
        ∉ (processAdminMessage ⟨Except.ok "s1", true, false, Except.error "db down", true⟩
            "admin@veil.im" "veil.im" "u@x.com" "hi").1 := by
  refine ⟨rfl, ?_⟩
  decide

/-- Claim C3 (amended): once the chat session is resolved, the database save
is always attempted, and an XMPP delivery failure does not prevent it; the
XMPP send is attempted exactly when the target has an active user session;
but the WebSocket broadcast is attempted exactly when the database save
succeeds — a save failure aborts processing before live delivery. -/
theorem claim_C3 :
    ∀ (sid : String) (hu xo : Bool) (sres : Except String Unit) (bo : Bool)
      (cfgAdmin domain targetUser message : String),
      (AdminEffect.saveMessage sid cfgAdmin (generateUserJID targetUser domain)
          message "admin"
        ∈ (processAdminMessage ⟨.ok sid, hu, xo, sres, bo⟩
            cfgAdmin domain targetUser message).1)
      ∧ ((AdminEffect.wsBroadcast targetUser message
          ∈ (processAdminMessage ⟨.ok sid, hu, xo, sres, bo⟩
              cfgAdmin domain targetUser message).1)
          ↔ sres = .ok ())
      ∧ ((AdminEffect.xmppSend cfgAdmin (generateUserJID targetUser domain) message
          ∈ (processAdminMessage ⟨.ok sid, hu, xo, sres, bo⟩
              cfgAdmin domain targetUser message).1)
          ↔ hu = true) := by
  intro sid hu xo sres bo cfgAdmin domain targetUser message
  cases sres <;> cases hu <;>
    simp [processAdminMessage]

/-- Claim C4, counterexample: the frozen claim says re-registering an
existing user id updates email and display name; SendUserMessage only
creates the record on first contact and afterwards never touches email or
display name, while message_count does keep accumulating. -/
theorem claim_C4_counterexample :
    (((botSendUserMessage ⟨true, true, true, true, true⟩
        (botSendUserMessage ⟨true, true, true, true, true⟩
          ⟨true, true, fun _ => none⟩ 1 "a@x.com" "Alice" "hi" 5).1
        1 "b@y.com" "Bob" "yo" 9).1.activeUsers 1).map (fun s => s.email)
      = some "a@x.com")
    ∧ (((botSendUserMessage ⟨true, true, true, true, true⟩
        (botSendUserMessage ⟨true, true, true, true, true⟩
          ⟨true, true, fun _ => none⟩ 1 "a@x.com" "Alice" "hi" 5).1
        1 "b@y.com" "Bob" "yo" 9).1.activeUsers 1).map (fun s => s.displayName)
      = some "Alice")
    ∧ (((botSendUserMessage ⟨true, true, true, true, true⟩
        (botSendUserMessage ⟨true, true, true, true, true⟩
          ⟨true, true, fun _ => none⟩ 1 "a@x.com" "Alice" "hi" 5).1
        1 "b@y.com" "Bob" "yo" 9).1.activeUsers 1).map (fun s => s.messageCount)
      = some 2)
    ∧ (((botSendUserMessage ⟨true, true, true, true, true⟩
        (botSendUserMessage ⟨true, true, true, true, true⟩
          ⟨true, true, fun _ => none⟩ 1 "a@x.com" "Alice" "hi" 5).1
        1 "b@y.com" "Bob" "yo" 9).1.activeUsers 1).map (fun s => s.email)
      ≠ some "b@y.com") := by
  refine ⟨rfl, rfl, rfl, ?_⟩
  decide

/-- Claim C4 (amended): recording a message for an already-tracked user id
keeps the originally stored email and display name (they are never updated)
while the accumulated message_count is preserved and incremented by one; a
first message creates the record with count one, and after n submissions
the count equals n. -/
theorem claim_C4 :
    (∀ (env : BotEnv) (m : Nat → Option UserSession) (uid : Nat)
        (email dn msg : String) (now : Int) (k : Nat),
      (botSendUserMessage env ⟨true, true, m⟩ uid email dn msg now).1.activeUsers k
        = if k = uid then
            some (match m uid with
              | some s => { s with
                  lastMessage := msg
                  lastMessageAt := now
                  messageCount := s.messageCount + 1 }
              | none => {
                  userID := uid
                  email := email
                  displayName := dn
                  lastMessage := msg
                  lastMessageAt := now
                  messageCount := 1
                  color := colors.getD (uid % colors.length) "" })
          else m k)
    ∧ (∀ (env : BotEnv) (uid : Nat) (email dn msg : String) (now : Int) (n : Nat),
        ((iterateSubmit env uid email dn msg now (n + 1)).activeUsers uid).map
            (fun s => s.messageCount) = some (n + 1)) := by
  constructor
  · intro env m uid email dn msg now k
    rcases hmu : m uid with _ | s <;>
      simp [botSendUserMessage, sendUserMessageCore, hmu]
  · intro env uid email dn msg now n
    induction n with
    | zero =>
      rw [iterateSubmit_step]
      simp [iterateSubmit, botSendUserMessage, sendUserMessageCore]
    | succ k ih =>
      obtain ⟨h1, h2⟩ := iterateSubmit_flags env uid email dn msg now (k + 1)
      rcases hsu : (iterateSubmit env uid email dn msg now (k + 1)).activeUsers uid
        with _ | s
      · rw [hsu] at ih
        exact absurd ih (by simp)
      · rw [hsu] at ih
        have hcount : s.messageCount = k + 1 := by
          simpa using ih
        rw [iterateSubmit_step]
        simp [botSendUserMessage, sendUserMessageCore, h1, h2, hsu, hcount]

/-- Claim C5, counterexample: the frozen claim treats CleanupInactiveSessions
as evictStale(threshold); the code has no threshold parameter (thirty
minutes is hard-wired) and returns no eviction count.  With a sixty-minute
threshold the spec-worded eviction keeps a forty-five-minute-old record
while the code evicts it. -/
theorem claim_C5_counterexample :
    cleanupInactiveSessions 100 [(1, ⟨1, "user_a@v", "pw", true, true, 55⟩)] = []
    ∧ (evictStaleSpec 100 60 [(1, ⟨1, "user_a@v", "pw", true, true, 55⟩)]).1
        = [(1, ⟨1, "user_a@v", "pw", true, true, 55⟩)]
    ∧ cleanupInactiveSessions 100 [(1, ⟨1, "user_a@v", "pw", true, true, 55⟩)]
        ≠ (evictStaleSpec 100 60 [(1, ⟨1, "user_a@v", "pw", true, true, 55⟩)]).1 := by
  decide

/-- Claim C5 (amended): CleanupInactiveSessions removes exactly the records
whose last use lies strictly more than thirty minutes before now — it agrees
with the spec-worded eviction instantiated at the fixed thirty-minute
threshold on the resulting map, though it returns no count; afterwards a
thirty-one-minute-old record is gone from the map and cannot be reused by
GetOrCreateUserSession, while a twenty-nine-minute-old record remains. -/
theorem claim_C5 :
    (∀ (now : Int) (m : SessionMap),
        cleanupInactiveSessions now m = (evictStaleSpec now 30 m).1)
    ∧ lookupSession (cleanupInactiveSessions 60
        [(1, ⟨1, "j1", "p", true, true, 29⟩), (2, ⟨2, "j2", "p", true, true, 31⟩)]) 1
        = none
    ∧ lookupSession (cleanupInactiveSessions 60
        [(1, ⟨1, "j1", "p", true, true, 29⟩), (2, ⟨2, "j2", "p", true, true, 31⟩)]) 2
        = some ⟨2, "j2", "p", true, true, 31⟩
    ∧ reusableSession 60 (cleanupInactiveSessions 60
        [(1, ⟨1, "j1", "p", true, true, 29⟩), (2, ⟨2, "j2", "p", true, true, 31⟩)]) 1
        = none := by
  refine ⟨fun now m => rfl, ?_, ?_, ?_⟩ <;> decide

/-- Claim C7, counterexample: the frozen claim says connecting while already
connected is a no-op performing no new connection attempt and leaving the
stored session untouched; XMPPManager.ConnectAdmin has no such guard — from
a connected state it dials again (the trace contains the attempt) and
overwrites the stored session with whatever createSession returns (nil in
the checked-in stub, so the stored-session flag even flips). -/
theorem claim_C7_counterexample :
    connectAdmin ⟨true, true, false⟩ ⟨true, true, []⟩
      = (⟨true, false, []⟩, [BotEffect.dialAttempt], Except.ok ())
    ∧ (connectAdmin ⟨true, true, false⟩ ⟨true, true, []⟩).2.1 ≠ [] := by
  refine ⟨rfl, ?_⟩
  decide

/-- Claim C7 (amended): BetterBotClient.Connect is idempotent exactly as the
claim describes — when connected with a live session it returns success at
once, with no transport action and the state unchanged; XMPPManager's
ConnectAdmin, however, performs a connection attempt on every call with a
valid admin JID, connected or not. -/
theorem claim_C7 :
    (∀ (env : BotEnv) (m : Nat → Option UserSession),
        botConnect env ⟨true, true, m⟩ = (⟨true, true, m⟩, [], Except.ok ()))
    ∧ (∀ (cOk sNN : Bool) (st : ManagerState),
        BotEffect.dialAttempt ∈ (connectAdmin ⟨true, cOk, sNN⟩ st).2.1) := by
  constructor
  · intro env m
    rfl
  · intro cOk sNN st
    cases cOk <;> simp [connectAdmin]

/-- Claim C8: sending while the connection handle is disconnected returns
the not-connected error and attempts nothing — XMPPManager.SendMessage with
an admin sender and the admin flag down yields only the error (the recipient
is not even parsed), and BetterBotClient.SendUserMessage with the connected
flag down, or a nil session, returns the error with the state untouched and
no transport action.  The embedding is a total function, so no exception
escapes. -/
theorem claim_C8 :
    (∀ (b : Bool) (ucs : List String) (a dst msg : String) (tv : Bool),
        sendMessage a tv ⟨false, b, ucs⟩ a dst msg
          = ([], Except.error "admin not connected"))
    ∧ (∀ (env : BotEnv) (b : Bool) (m : Nat → Option UserSession) (uid : Nat)
        (email dn msg : String) (now : Int),
        botSendUserMessage env ⟨false, b, m⟩ uid email dn msg now
          = (⟨false, b, m⟩, [], Except.error "bot not connected"))
    ∧ (∀ (env : BotEnv) (m : Nat → Option UserSession) (uid : Nat)
        (email dn msg : String) (now : Int),
        botSendUserMessage env ⟨true, false, m⟩ uid email dn msg now
          = (⟨true, false, m⟩, [], Except.error "bot not connected")) := by
  refine ⟨?_, ?_, ?_⟩
  · intro b ucs a dst msg tv
    simp [sendMessage]
  · intro env b m uid email dn msg now
    rfl
  · intro env m uid email dn msg now
    rfl

end VeilSupport
